import Mathlib

/-!
# swarm-seed-list: discovery, seed-list assembly and the refreshing cache

A shallow embedding of `main.go`.

* Go strings and byte slices are lists of bytes (`Fin 256`).
* The collaborators of the program (the Docker task listing, the JSON-RPC
  `peer_public_key` call, the goroutine scheduler, the ed25519 primitives and
  the tail of `net.ParseCIDR`) are explicit arguments.
* `encoding/hex` is embedded from the Go standard library.
-/

namespace SeedList

/-! ## Bytes and strings -/

/-- One octet. -/
abbrev Byte := Fin 256

/-- Go `string` and `[]byte`: a finite sequence of octets. -/
abbrev Bytes := List Byte

/-- The octets of an ASCII literal. -/
def ascii (s : String) : Bytes :=
  s.toList.map (fun c => Fin.ofNat c.toNat)

/-- The line break written by `buf.WriteByte` in `generateSeedList`. -/
def nl : Byte := 10

/-- The path separator looked for by `net.ParseCIDR`. -/
def slash : Byte := 47

/-! ## encoding/hex -/

/-- Go `const hextable = "0123456789abcdef"`. -/
def hextable : Bytes := ascii "0123456789abcdef"

/-- Go `hextable[n]` for a nibble `n`. -/
def hexDigit (n : Nat) : Byte := hextable.getD n 0

/-- Go `hex.EncodeToString`: two digits per octet, `hextable[v>>4]` then
`hextable[v&0x0f]`. -/
def EncodeToString : Bytes → Bytes
  | [] => []
  | v :: rest => hexDigit (v.val / 16) :: hexDigit (v.val % 16) :: EncodeToString rest

/-- Go `reverseHexTable`: the value of a hex digit (either case), or `none`
where the table holds `0xff`. -/
def reverseHexTable (c : Byte) : Option Nat :=
  if 48 ≤ c.val ∧ c.val ≤ 57 then some (c.val - 48)
  else if 97 ≤ c.val ∧ c.val ≤ 102 then some (c.val - 87)
  else if 65 ≤ c.val ∧ c.val ≤ 70 then some (c.val - 55)
  else none

/-- The errors of `hex.Decode`. -/
inductive HexError where
  | invalidByte (b : Byte)
  | errLength
  deriving DecidableEq, Repr

/-- Go `hex.Decode` as used by `hex.DecodeString`: the octets decoded before
the first problem, and the error if there was one. -/
def DecodeString : Bytes → Bytes × Option HexError
  | [] => ([], none)
  | [p] =>
    match reverseHexTable p with
    | none => ([], some (HexError.invalidByte p))
    | some _ => ([], some HexError.errLength)
  | p :: q :: rest =>
    match reverseHexTable p with
    | none => ([], some (HexError.invalidByte p))
    | some a =>
      match reverseHexTable q with
      | none => ([], some (HexError.invalidByte q))
      | some b =>
        let r := DecodeString rest
        (Fin.ofNat (a * 16 + b) :: r.1, r.2)

/-! ## Data model (Docker swarm task records) -/

/-- Field `swarm.NetworkAttachment`: `Network.Spec.Name` and `Addresses`. -/
structure NetworkAttachment where
  networkName : Bytes
  addresses : List Bytes
  deriving DecidableEq, Repr

/-- Record `swarm.Task`, restricted to the fields `getURLs` reads. -/
structure Task where
  id : Bytes
  desiredState : Bytes
  statusState : Bytes
  networksAttachments : List NetworkAttachment
  deriving DecidableEq, Repr

/-- Constant `swarm.TaskStateRunning`. -/
def TaskStateRunning : Bytes := ascii "running"

/-! ## net.ParseCIDR -/

/-- Go `net.ParseCIDR` followed by `ip.String()`. The function first looks for
the first `'/'` and fails when there is none; the parsing of the two halves
(address and prefix length) and the printing of the address are the argument
`parseAddrMask`. -/
def ParseCIDR (parseAddrMask : Bytes → Bytes → Option Bytes) (s : Bytes) : Option Bytes :=
  let i := s.indexOf slash
  if i < s.length then parseAddrMask (s.take i) (s.drop (i + 1)) else none

/-! ## getURLs -/

/-- The attachment scan of `getURLs` (lines 134-141): the first address of the
first attachment on the target network that has an address, or `""`. -/
def findAddress (networkName : Bytes) : List NetworkAttachment → Bytes
  | [] => []
  | attachment :: rest =>
    if attachment.networkName = networkName ∧ 0 < attachment.addresses.length then
      attachment.addresses.headD []
    else findAddress networkName rest

/-- One iteration of the task loop of `getURLs` (lines 126-153): `some ipStr`
when the iteration reaches `wg.Add(1)` and starts a goroutine for `ipStr`,
`none` when it leaves through a `continue`. -/
def taskAttempt (parseAddrMask : Bytes → Bytes → Option Bytes) (networkName : Bytes)
    (task : Task) : Option Bytes :=
  if task.desiredState ≠ TaskStateRunning ∨ task.statusState ≠ TaskStateRunning then none
  else
    let address := findAddress networkName task.networksAttachments
    if address = [] then none
    else
      match ParseCIDR parseAddrMask (ascii "address") with
      | none => none
      | some ipStr => some ipStr

/-- The goroutines started by the task loop of `getURLs`, in task order, each
named by its `ipStr`. -/
def spawnAttempts (parseAddrMask : Bytes → Bytes → Option Bytes) (networkName : Bytes)
    (list : List Task) : List Bytes :=
  list.filterMap (taskAttempt parseAddrMask networkName)

/-- The URL sent on `urlChan`: `fmt.Sprintf("ws://%s:8443/%s", ipStr, publicKey)`. -/
def seedURL (ipStr publicKey : Bytes) : Bytes :=
  ascii "ws://" ++ ipStr ++ ascii ":8443/" ++ publicKey

/-- The endpoint of the key request: `fmt.Sprintf("http://%s:8648", ipStr)`. -/
def rpcEndpoint (ipStr : Bytes) : Bytes :=
  ascii "http://" ++ ipStr ++ ascii ":8648"

/-- The body of one goroutine (lines 154-170): the URL it sends on `urlChan`,
or `none` when `rpc.CallFor` fails and it only logs. `callFor n endpoint` is
the outcome of the `peer_public_key` call of the `n`-th goroutine. -/
def attemptResult (callFor : Nat → Bytes → Option Bytes) (n : Nat) (ipStr : Bytes) :
    Option Bytes :=
  match callFor n (rpcEndpoint ipStr) with
  | none => none
  | some publicKey => some (seedURL ipStr publicKey)

/-- The receive loop on `urlChan` (lines 172-178) with `fuel` goroutines still
running: the scheduler picks which of them settles next (`sched`, read modulo
the number still running); a goroutine that has a URL hands it over, one that
failed hands over nothing. -/
def drainAux : Nat → List Nat → List (Option Bytes) → List Bytes → List Bytes
  | 0, _, _, urls => urls
  | fuel + 1, sched, pending, urls =>
    match pending with
    | [] => urls
    | _ :: _ =>
      let k := sched.headD 0 % pending.length
      let urls1 := match pending.getD k none with
        | none => urls
        | some u => urls ++ [u]
      drainAux fuel sched.tail (pending.eraseIdx k) urls1

/-- The receive loop until `urlChan` is closed, that is until every goroutine
has settled. -/
def drain (sched : List Nat) (pending : List (Option Bytes)) : List Bytes :=
  drainAux pending.length sched pending []

/-- What the program is configured with and runs against in one cycle. -/
structure World where
  /-- Tail of `net.ParseCIDR` and `ip.String()`. -/
  parseAddrMask : Bytes → Bytes → Option Bytes
  /-- Flag `--network`. -/
  networkName : Bytes
  /-- Outcome of `cl.TaskList`: the task snapshot, or an error. -/
  taskList : Except Bytes (List Task)
  /-- Outcome of the `peer_public_key` call of the `n`-th goroutine. -/
  callFor : Nat → Bytes → Option Bytes
  /-- Order in which the goroutines settle. -/
  sched : List Nat

/-- Function `getURLs` (lines 109-180). -/
def getURLs (w : World) : Except Bytes (List Bytes) :=
  match w.taskList with
  | .error err => .error err
  | .ok list =>
    let attempts := spawnAttempts w.parseAddrMask w.networkName list
    let pending := attempts.enum.map (fun p => attemptResult w.callFor p.1 p.2)
    .ok (drain w.sched pending)

/-! ## generateSeedList -/

/-- The write loop of `generateSeedList` (lines 95-99). -/
def writeURLs (urls : List Bytes) : Bytes :=
  urls.foldl (fun buf u => buf ++ u ++ [nl]) []

/-- Lines 95-106 of `generateSeedList`: the buffer built from the URLs, signed
when `privateKey` is not nil (`none` is the nil key). `sign` is `ed25519.Sign`,
whose signature is a function of the key and the message. -/
def seedListBytes (sign : Bytes → Bytes → Bytes) (privateKey : Option Bytes)
    (urls : List Bytes) : Bytes :=
  let buf := writeURLs urls
  match privateKey with
  | none => buf
  | some key =>
    let sig := sign key buf
    buf ++ [nl] ++ EncodeToString sig ++ [nl]

/-- Function `generateSeedList` (lines 90-107). -/
def generateSeedList (sign : Bytes → Bytes → Bytes) (privateKey : Option Bytes)
    (w : World) : Except Bytes Bytes :=
  match getURLs w with
  | .error err => .error err
  | .ok urls => .ok (seedListBytes sign privateKey urls)

/-! ## main: the signing key -/

/-- Constant `ed25519.SeedSize`. -/
def SeedSize : Nat := 32

/-- The calls of `logrus.Fatal` in `main`, each of which ends the process. -/
inductive Fatal where
  | invalidSeedPrivateKey
  | dockerClient (err : Bytes)
  | initialSeedList (err : Bytes)
  deriving DecidableEq, Repr

/-- Lines 39-46 of `main`: the value of `privateKey` after reading
`$SEED_PRIVATE_KEY` (`pk`, empty when the variable is not set), or the fatal
exit. `newKeyFromSeed` is `ed25519.NewKeyFromSeed`. -/
def loadPrivateKey (newKeyFromSeed : Bytes → Bytes) (pk : Bytes) :
    Except Fatal (Option Bytes) :=
  if pk ≠ [] then
    let r := DecodeString pk
    if r.2 ≠ none ∨ r.1.length ≠ SeedSize then .error Fatal.invalidSeedPrivateKey
    else .ok (some (newKeyFromSeed r.1))
  else .ok none

/-! ## main: the cache -/

/-- Lines 39-67 of `main`: the signing key and the first seed list, or the
fatal exit taken before the server starts. `newEnvClient` is the error of
`client.NewEnvClient`, if any; `w` is what the first cycle runs against. -/
def startup (newKeyFromSeed : Bytes → Bytes) (sign : Bytes → Bytes → Bytes) (pk : Bytes)
    (newEnvClient : Option Bytes) (w : World) : Except Fatal (Option Bytes × Bytes) :=
  match loadPrivateKey newKeyFromSeed pk with
  | .error f => .error f
  | .ok privateKey =>
    match newEnvClient with
    | some err => .error (Fatal.dockerClient err)
    | none =>
      match generateSeedList sign privateKey w with
      | .error err => .error (Fatal.initialSeedList err)
      | .ok seedList => .ok (privateKey, seedList)

/-- One iteration of the refresh loop (lines 70-76): the value of `seedList`
after it, given the outcome of `generateSeedList`. The assignment is made
under `m.Lock`. -/
def refresh (seedList : Bytes) (result : Except Bytes Bytes) : Bytes :=
  match result with
  | .error _ => seedList
  | .ok newSeedList => newSeedList

/-- What the handler sends. -/
structure Response where
  contentType : Bytes
  status : Nat
  body : Bytes
  deriving DecidableEq, Repr

/-- The HTTP handler (lines 79-85), which reads `seedList` under `m.RLock`. -/
def handler (seedList : Bytes) : Response :=
  { contentType := ascii "text/plain; charset=UTF-8", status := 200, body := seedList }

/-- What happens to the cache once the server runs: a tick of the refresh loop
with the outcome of its `generateSeedList`, or a request. The mutex makes each
of the two one indivisible step on `seedList`. -/
inductive Event where
  | tick (result : Except Bytes Bytes)
  | request

/-- The cache under a sequence of ticks and requests: the final `seedList` and
the responses sent, in order. -/
def serveAll (seedList : Bytes) : List Event → Bytes × List Response
  | [] => (seedList, [])
  | Event.tick result :: rest => serveAll (refresh seedList result) rest
  | Event.request :: rest =>
    let r := serveAll seedList rest
    (r.1, handler seedList :: r.2)

/-! ## main: the cache at the level of the mutex -/

/-- Where the refresh goroutine stands in its loop (lines 69-77). -/
inductive RefreshPc where
  /-- In `time.Tick` or inside `generateSeedList`. -/
  | waiting
  /-- `generateSeedList` has returned `newSeedList`; before `m.Lock()`. -/
  | generated (newSeedList : Bytes)
  /-- Holds the write lock; before the assignment. -/
  | locked (newSeedList : Bytes)
  /-- Holds the write lock; the assignment is done, before `m.Unlock()`. -/
  | assigned
  deriving DecidableEq, Repr

/-- The variable `seedList`, the number of handlers between `m.RLock()` and
`m.RUnlock()`, and the position of the refresh goroutine. -/
structure LockedCache where
  seedList : Bytes
  readers : Nat
  pc : RefreshPc
  deriving DecidableEq, Repr

/-- Whether the refresh goroutine is between `m.Lock()` and `m.Unlock()`. -/
def writerHolds : RefreshPc → Bool
  | RefreshPc.locked _ => true
  | RefreshPc.assigned => true
  | _ => false

/-- One statement of the refresh goroutine or of a handler. A `write` carries
the bytes a handler would see if it read `seedList` while the writer is inside
its critical section. -/
inductive Move where
  | generate (result : Except Bytes Bytes)
  | lock
  | assign
  | unlock
  | rlock
  | write (torn : Bytes)
  | runlock

/-- The effect of one statement, `none` when the statement cannot run in this
state (a goroutine blocked on the mutex, or not at that statement), together
with the response sent, if any, and the cache event it amounts to, if any. -/
def move (c : LockedCache) : Move → Option (LockedCache × Option Response × Option Event)
  | Move.generate result =>
    match c.pc with
    | RefreshPc.waiting =>
      match result with
      | .error err => some (c, none, some (Event.tick (.error err)))
      | .ok newSeedList => some ({ c with pc := RefreshPc.generated newSeedList }, none, none)
    | _ => none
  | Move.lock =>
    match c.pc with
    | RefreshPc.generated newSeedList =>
      if c.readers = 0 then some ({ c with pc := RefreshPc.locked newSeedList }, none, none)
      else none
    | _ => none
  | Move.assign =>
    match c.pc with
    | RefreshPc.locked newSeedList =>
      some ({ c with seedList := newSeedList, pc := RefreshPc.assigned }, none,
        some (Event.tick (.ok newSeedList)))
    | _ => none
  | Move.unlock =>
    match c.pc with
    | RefreshPc.assigned => some ({ c with pc := RefreshPc.waiting }, none, none)
    | _ => none
  | Move.rlock =>
    if writerHolds c.pc then none else some ({ c with readers := c.readers + 1 }, none, none)
  | Move.write torn =>
    if c.readers = 0 then none
    else some (c, some (handler (if writerHolds c.pc then torn else c.seedList)),
      some Event.request)
  | Move.runlock =>
    if c.readers = 0 then none else some ({ c with readers := c.readers - 1 }, none, none)

/-- A run of statements: the final state, the responses sent and the cache
events, in order; `none` when some statement cannot run where it stands. -/
def moves (c : LockedCache) : List Move → Option (LockedCache × List Response × List Event)
  | [] => some (c, [], [])
  | m :: rest =>
    match move c m with
    | none => none
    | some (c1, response, event) =>
      match moves c1 rest with
      | none => none
      | some (c2, responses, events) =>
        some (c2, response.toList ++ responses, event.toList ++ events)

/-- The cache when the server starts: the first artifact, no handler running,
the refresh goroutine waiting for its first tick. -/
def serving (seedList : Bytes) : LockedCache :=
  { seedList := seedList, readers := 0, pc := RefreshPc.waiting }

/-! ## Specification-side definitions -/

/-- The URL lines as the specification words them: every URL, in order, each
followed by one line break. -/
def urlLines : List Bytes → Bytes
  | [] => []
  | u :: rest => u ++ [nl] ++ urlLines rest

/-- A lowercase hex digit, `0`-`9` or `a`-`f`. -/
def isLowerHex (c : Byte) : Prop :=
  (48 ≤ c.val ∧ c.val ≤ 57) ∨ (97 ≤ c.val ∧ c.val ≤ 102)

/-- The lowercase hex digit of a value below 16 in the words of the
specification: the digits `0` to `9`, then the letters `a` to `f`. -/
def lowerHexDigit (n : Nat) : Byte :=
  if n < 10 then Fin.ofNat (48 + n) else Fin.ofNat (97 + (n - 10))

/-- Lowercase hex encoding in the words of the specification: every octet as
two digits, the high four bits first. -/
def lowerHex : Bytes → Bytes
  | [] => []
  | b :: rest => [lowerHexDigit (b.val / 16), lowerHexDigit (b.val % 16)] ++ lowerHex rest

/-- A hex digit of either case. -/
def isHexDigit (c : Byte) : Prop :=
  (48 ≤ c.val ∧ c.val ≤ 57) ∨ (97 ≤ c.val ∧ c.val ≤ 102) ∨ (65 ≤ c.val ∧ c.val ≤ 70)

/-- The eligibility condition of the specification: desired state running,
observed state running, and an attachment on the target network that carries
at least one address. -/
def isCandidate (networkName : Bytes) (task : Task) : Prop :=
  task.desiredState = TaskStateRunning ∧ task.statusState = TaskStateRunning ∧
    ∃ a ∈ task.networksAttachments, a.networkName = networkName ∧ 0 < a.addresses.length

/-- The output of the most recent successful generation among `events`,
starting from `seedList`. -/
def lastGenerated (seedList : Bytes) : List Event → Bytes
  | [] => seedList
  | Event.tick (.ok newSeedList) :: rest => lastGenerated newSeedList rest
  | Event.tick (.error _) :: rest => lastGenerated seedList rest
  | Event.request :: rest => lastGenerated seedList rest

/-- The number of requests among `events`. -/
def requestCount : List Event → Nat
  | [] => 0
  | Event.request :: rest => requestCount rest + 1
  | Event.tick _ :: rest => requestCount rest

/-- The events up to, and not including, the `n`-th request (counted from 0). -/
def beforeRequest : Nat → List Event → List Event
  | _, [] => []
  | 0, Event.request :: _ => []
  | n + 1, Event.request :: rest => Event.request :: beforeRequest n rest
  | n, Event.tick result :: rest => Event.tick result :: beforeRequest n rest

/-- No handler is between `m.RLock()` and `m.RUnlock()` while the refresh
goroutine is between `m.Lock()` and `m.Unlock()`. -/
def exclusive (c : LockedCache) : Prop :=
  writerHolds c.pc = true → c.readers = 0

/-! ## Example inputs -/

/-- Target network of the examples (the default of `--network`). -/
def devnet : Bytes := ascii "devnet"

/-- A running task attached to `devnet` at `address`. -/
def runningTask (id address : Bytes) : Task :=
  { id := id, desiredState := ascii "running", statusState := ascii "running",
    networksAttachments := [{ networkName := devnet, addresses := [address] }] }

/-- A tail of `net.ParseCIDR` that accepts every address and returns it
unchanged. -/
def parseAny (addr _mask : Bytes) : Option Bytes := some addr

/-- Three running tasks on `devnet`. -/
def threeTasks : List Task :=
  [runningTask (ascii "t1") (ascii "10.0.0.1/24"),
   runningTask (ascii "t2") (ascii "10.0.0.2/24"),
   runningTask (ascii "t3") (ascii "10.0.0.3/24")]

/-- Peers `10.0.0.1` and `10.0.0.2` answer `aa` and `bb`; every other call
times out. -/
def twoAnswer (_n : Nat) (endpoint : Bytes) : Option Bytes :=
  if endpoint = rpcEndpoint (ascii "10.0.0.1") then some (ascii "aa")
  else if endpoint = rpcEndpoint (ascii "10.0.0.2") then some (ascii "bb")
  else none

/-- The world of the end-to-end example. -/
def exampleWorld : World :=
  { parseAddrMask := parseAny, networkName := devnet, taskList := .ok threeTasks,
    callFor := twoAnswer, sched := [] }

/-- The same snapshot with other peer answers and another completion order. -/
def exampleWorld2 : World :=
  { parseAddrMask := parseAny, networkName := devnet, taskList := .ok threeTasks,
    callFor := fun _ _ => some (ascii "cc"), sched := [2, 1, 0] }

/-- A world whose task listing fails. -/
def failingWorld : World :=
  { parseAddrMask := parseAny, networkName := devnet, taskList := .error (ascii "unreachable"),
    callFor := twoAnswer, sched := [] }

/-- A stand-in signer for the examples: 64 octets, the first one the length of
the message modulo 256. -/
def toySign (_key msg : Bytes) : Bytes :=
  Fin.ofNat msg.length :: List.replicate 63 0

/-- A second stand-in signer whose octets use every hex digit: octet `i` is
the length of the message plus `37 * i`, modulo 256. -/
def rampSign (_key msg : Bytes) : Bytes :=
  (List.range 64).map (fun i => Fin.ofNat (msg.length + 37 * i))

/-- The verifier that goes with `toySign`. -/
def toyVerify (_pub msg sig : Bytes) : Bool :=
  decide (sig = toySign [] msg)

/-! ## Lemmas on getURLs -/

theorem parseCIDR_address (parse : Bytes → Bytes → Option Bytes) :
    ParseCIDR parse (ascii "address") = none := by
  have h : ¬ (List.indexOf slash (ascii "address") < (ascii "address").length) := by decide
  simp only [ParseCIDR, h, if_false]

theorem taskAttempt_eq_none (parse : Bytes → Bytes → Option Bytes) (networkName : Bytes)
    (task : Task) : taskAttempt parse networkName task = none := by
  unfold taskAttempt
  rw [parseCIDR_address]
  by_cases h1 : task.desiredState ≠ TaskStateRunning ∨ task.statusState ≠ TaskStateRunning
  · rw [if_pos h1]
  · rw [if_neg h1]
    by_cases h2 : findAddress networkName task.networksAttachments = []
    · simp only [h2, if_true]
    · simp only [h2, if_false]

theorem spawnAttempts_eq_nil (parse : Bytes → Bytes → Option Bytes) (networkName : Bytes)
    (list : List Task) : spawnAttempts parse networkName list = [] := by
  unfold spawnAttempts
  induction list with
  | nil => rfl
  | cons t rest ih => rw [List.filterMap_cons, taskAttempt_eq_none]; exact ih

theorem getURLs_of_ok (w : World) (list : List Task) (h : w.taskList = .ok list) :
    getURLs w = .ok [] := by
  unfold getURLs
  rw [h]
  simp only [spawnAttempts_eq_nil]
  rfl

theorem getURLs_of_error (w : World) (err : Bytes) (h : w.taskList = .error err) :
    getURLs w = .error err := by
  unfold getURLs
  rw [h]

theorem generateSeedList_of_ok (sign : Bytes → Bytes → Bytes) (privateKey : Option Bytes)
    (w : World) (list : List Task) (h : w.taskList = .ok list) :
    generateSeedList sign privateKey w = .ok (seedListBytes sign privateKey []) := by
  unfold generateSeedList
  rw [getURLs_of_ok w list h]

theorem generateSeedList_of_error (sign : Bytes → Bytes → Bytes) (privateKey : Option Bytes)
    (w : World) (err : Bytes) (h : w.taskList = .error err) :
    generateSeedList sign privateKey w = .error err := by
  unfold generateSeedList
  rw [getURLs_of_error w err h]

theorem length_EncodeToString (src : Bytes) : (EncodeToString src).length = 2 * src.length := by
  induction src with
  | nil => rfl
  | cons v rest ih => simp only [EncodeToString, List.length_cons, ih]; omega

/-! ## Lemmas on encoding/hex -/

theorem reverseHexTable_hexDigit (n : Nat) (h : n < 16) :
    reverseHexTable (hexDigit n) = some n := by
  interval_cases n <;> decide

theorem isLowerHex_hexDigit (n : Nat) (h : n < 16) : isLowerHex (hexDigit n) := by
  unfold isLowerHex
  interval_cases n <;> decide

theorem ofNat_nibbles (v : Byte) : (Fin.ofNat (v.val / 16 * 16 + v.val % 16) : Byte) = v := by
  apply Fin.ext
  have h := v.isLt
  simp only [Fin.ofNat]
  omega

theorem isLowerHex_EncodeToString (src : Bytes) : ∀ c ∈ EncodeToString src, isLowerHex c := by
  induction src with
  | nil => intro c hc; simp [EncodeToString] at hc
  | cons v rest ih =>
    intro c hc
    have hv := v.isLt
    simp only [EncodeToString, List.mem_cons] at hc
    rcases hc with rfl | rfl | hc
    · exact isLowerHex_hexDigit _ (by omega)
    · exact isLowerHex_hexDigit _ (by omega)
    · exact ih c hc

theorem nl_not_mem_EncodeToString (src : Bytes) : nl ∉ EncodeToString src := by
  intro h
  have := isLowerHex_EncodeToString src nl h
  unfold isLowerHex at this
  revert this
  decide

theorem DecodeString_EncodeToString (src : Bytes) :
    DecodeString (EncodeToString src) = (src, none) := by
  induction src with
  | nil => rfl
  | cons v rest ih =>
    have hv := v.isLt
    simp only [EncodeToString, DecodeString,
      reverseHexTable_hexDigit (v.val / 16) (by omega),
      reverseHexTable_hexDigit (v.val % 16) (by omega), ih, ofNat_nibbles]

theorem hexDigit_eq_lowerHexDigit (n : Nat) (h : n < 16) : hexDigit n = lowerHexDigit n := by
  interval_cases n <;> decide

theorem EncodeToString_eq_lowerHex (src : Bytes) : EncodeToString src = lowerHex src := by
  induction src with
  | nil => rfl
  | cons v rest ih =>
    have hv := v.isLt
    simp only [EncodeToString, lowerHex, ih, List.cons_append, List.nil_append,
      hexDigit_eq_lowerHexDigit (v.val / 16) (by omega),
      hexDigit_eq_lowerHexDigit (v.val % 16) (by omega)]

/-- Digit `2 * i` of the encoding is the digit of the high four bits of octet
`i`, digit `2 * i + 1` that of its low four bits. -/
theorem EncodeToString_digits (src : Bytes) : ∀ i : Nat,
    (EncodeToString src).get? (2 * i) = (src.get? i).map (fun b => lowerHexDigit (b.val / 16)) ∧
    (EncodeToString src).get? (2 * i + 1)
      = (src.get? i).map (fun b => lowerHexDigit (b.val % 16)) := by
  induction src with
  | nil => intro i; simp [EncodeToString]
  | cons v rest ih =>
    intro i
    have hv := v.isLt
    cases i with
    | zero =>
      simp only [EncodeToString, Nat.mul_zero, List.get?_cons_zero, Nat.zero_add,
        List.get?_cons_succ, Option.map_some',
        hexDigit_eq_lowerHexDigit (v.val / 16) (by omega),
        hexDigit_eq_lowerHexDigit (v.val % 16) (by omega), and_self]
    | succ j =>
      have h1 : 2 * (j + 1) = (2 * j + 1) + 1 := by omega
      rw [h1]
      simp only [EncodeToString, List.get?_cons_succ]
      exact ih j

theorem reverseHexTable_isSome (c : Byte) : (reverseHexTable c).isSome ↔ isHexDigit c := by
  unfold reverseHexTable isHexDigit
  split_ifs with h1 h2 h3 <;> simp_all

/-- When `DecodeString` reports no error, the input has an even number of hex
digits and the output has half as many octets; and conversely. -/
theorem DecodeString_ok_iff (n : Nat) : ∀ s : Bytes, s.length ≤ n →
    ((DecodeString s).2 = none ↔ (s.length % 2 = 0 ∧ ∀ c ∈ s, isHexDigit c)) ∧
    ((DecodeString s).2 = none → 2 * (DecodeString s).1.length = s.length) := by
  induction n with
  | zero =>
    intro s hs
    have : s = [] := List.length_eq_zero.mp (by omega)
    subst this
    simp [DecodeString]
  | succ n ih =>
    intro s hs
    match s, hs with
    | [], _ => simp [DecodeString]
    | [p], _ =>
      simp only [DecodeString]
      cases hp : reverseHexTable p <;> simp
    | p :: q :: rest, hs =>
      have hrest : rest.length ≤ n := by simp only [List.length_cons] at hs; omega
      have ihr := ih rest hrest
      have hp := reverseHexTable_isSome p
      have hq := reverseHexTable_isSome q
      simp only [DecodeString]
      cases hpv : reverseHexTable p with
      | none =>
        rw [hpv] at hp
        simp at hp
        simp [hp]
      | some a =>
        rw [hpv] at hp
        simp at hp
        cases hqv : reverseHexTable q with
        | none =>
          rw [hqv] at hq
          simp at hq
          simp [hq]
        | some b =>
          rw [hqv] at hq
          simp at hq
          simp only [List.length_cons, List.mem_cons, forall_eq_or_imp, hp, hq, true_and]
          constructor
          · rw [ihr.1]
            constructor
            · rintro ⟨h1, h2⟩; exact ⟨by omega, h2⟩
            · rintro ⟨h1, h2⟩; exact ⟨by omega, h2⟩
          · intro h
            have := ihr.2 h
            omega

/-! ## The receive loop -/

theorem filterMap_eraseIdx_perm (pending : List (Option Bytes)) (k : Nat)
    (hk : k < pending.length) :
    List.Perm (pending.filterMap id)
      ((pending.getD k none).toList ++ (pending.eraseIdx k).filterMap id) := by
  induction pending generalizing k with
  | nil => simp at hk
  | cons p rest ih =>
    cases k with
    | zero =>
      cases p with
      | none => simp
      | some u => simp
    | succ j =>
      have hj : j < rest.length := by simp only [List.length_cons] at hk; omega
      have h := ih j hj
      cases p with
      | none => simpa using h
      | some u =>
        simp only [List.filterMap_cons_some, id_eq, List.getD_cons_succ, List.eraseIdx_cons_succ]
        exact (List.Perm.cons u h).trans List.perm_middle.symm

/-- The URLs received are, up to order, the URLs of the goroutines whose call
succeeded. -/
theorem drainAux_perm (fuel : Nat) : ∀ (sched : List Nat) (pending : List (Option Bytes))
    (urls : List Bytes), pending.length ≤ fuel →
    List.Perm (drainAux fuel sched pending urls) (urls ++ pending.filterMap id) := by
  induction fuel with
  | zero =>
    intro sched pending urls h
    have : pending = [] := List.length_eq_zero.mp (by omega)
    subst this
    simp [drainAux]
  | succ fuel ih =>
    intro sched pending urls h
    cases hp : pending with
    | nil => simp [drainAux]
    | cons p rest =>
      rw [← hp]
      have hpos : 0 < pending.length := by rw [hp]; simp
      have hk : sched.headD 0 % pending.length < pending.length := Nat.mod_lt _ hpos
      have hlen : (pending.eraseIdx (sched.headD 0 % pending.length)).length ≤ fuel := by
        rw [List.length_eraseIdx, if_pos hk]; omega
      have hstep : drainAux (fuel + 1) sched pending urls =
          drainAux fuel sched.tail (pending.eraseIdx (sched.headD 0 % pending.length))
            (urls ++ (pending.getD (sched.headD 0 % pending.length) none).toList) := by
        rw [hp]
        simp only [drainAux]
        cases (p :: rest).getD (sched.headD 0 % (p :: rest).length) none <;> simp
      rw [hstep]
      refine (ih _ _ _ hlen).trans ?_
      rw [List.append_assoc]
      exact (filterMap_eraseIdx_perm pending _ hk).symm.append_left urls

theorem drain_perm (sched : List Nat) (pending : List (Option Bytes)) :
    List.Perm (drain sched pending) (pending.filterMap id) := by
  have h := drainAux_perm pending.length sched pending [] (le_refl _)
  simpa [drain] using h

/-! ## The mutex -/

theorem move_exclusive (c c1 : LockedCache) (m : Move) (response : Option Response)
    (event : Option Event) (hc : exclusive c) (h : move c m = some (c1, response, event)) :
    exclusive c1 ∧
    response.toList = (serveAll c.seedList event.toList).2 ∧
    c1.seedList = (serveAll c.seedList event.toList).1 := by
  unfold exclusive at *
  cases m with
  | generate result =>
    simp only [move] at h
    cases hpc : c.pc <;> rw [hpc] at h <;> simp only [reduceCtorEq] at h
    cases result with
    | error err =>
      simp only [Option.some.injEq, Prod.mk.injEq] at h
      obtain ⟨rfl, rfl, rfl⟩ := h
      exact ⟨hc, rfl, rfl⟩
    | ok newSeedList =>
      simp only [Option.some.injEq, Prod.mk.injEq] at h
      obtain ⟨rfl, rfl, rfl⟩ := h
      exact ⟨fun hw => by simp [writerHolds] at hw, rfl, rfl⟩
  | lock =>
    simp only [move] at h
    cases hpc : c.pc <;> rw [hpc] at h <;> simp only [reduceCtorEq] at h
    by_cases hr : c.readers = 0
    · rw [if_pos hr] at h
      simp only [Option.some.injEq, Prod.mk.injEq] at h
      obtain ⟨rfl, rfl, rfl⟩ := h
      exact ⟨fun _ => hr, rfl, rfl⟩
    · rw [if_neg hr] at h; cases h
  | assign =>
    simp only [move] at h
    cases hpc : c.pc <;> rw [hpc] at h <;> simp only [reduceCtorEq] at h
    simp only [Option.some.injEq, Prod.mk.injEq] at h
    obtain ⟨rfl, rfl, rfl⟩ := h
    exact ⟨fun _ => hc (by rw [hpc]; rfl), rfl, rfl⟩
  | unlock =>
    simp only [move] at h
    cases hpc : c.pc <;> rw [hpc] at h <;> simp only [reduceCtorEq] at h
    simp only [Option.some.injEq, Prod.mk.injEq] at h
    obtain ⟨rfl, rfl, rfl⟩ := h
    exact ⟨fun hw => by simp [writerHolds] at hw, rfl, rfl⟩
  | rlock =>
    simp only [move] at h
    by_cases hw : writerHolds c.pc = true
    · rw [if_pos hw] at h; cases h
    · rw [if_neg hw] at h
      simp only [Option.some.injEq, Prod.mk.injEq] at h
      obtain ⟨rfl, rfl, rfl⟩ := h
      exact ⟨fun hw1 => absurd hw1 hw, rfl, rfl⟩
  | write torn =>
    simp only [move] at h
    by_cases hr : c.readers = 0
    · rw [if_pos hr] at h; cases h
    · rw [if_neg hr] at h
      simp only [Option.some.injEq, Prod.mk.injEq] at h
      obtain ⟨rfl, rfl, rfl⟩ := h
      have hw : ¬ writerHolds c.pc = true := fun hw => hr (hc hw)
      refine ⟨hc, ?_, rfl⟩
      simp only [hw, if_false, Option.toList, serveAll]
      rfl
  | runlock =>
    simp only [move] at h
    by_cases hr : c.readers = 0
    · rw [if_pos hr] at h; cases h
    · rw [if_neg hr] at h
      simp only [Option.some.injEq, Prod.mk.injEq] at h
      obtain ⟨rfl, rfl, rfl⟩ := h
      exact ⟨fun hw => absurd (hc hw) hr, rfl, rfl⟩

theorem serveAll_append (seedList : Bytes) (e1 e2 : List Event) :
    serveAll seedList (e1 ++ e2) =
      ((serveAll (serveAll seedList e1).1 e2).1,
       (serveAll seedList e1).2 ++ (serveAll (serveAll seedList e1).1 e2).2) := by
  induction e1 generalizing seedList with
  | nil => rfl
  | cons e rest ih =>
    cases e with
    | tick result =>
      show serveAll (refresh seedList result) (rest ++ e2) = _
      rw [ih]
      rfl
    | request =>
      show ((serveAll seedList (rest ++ e2)).1,
        handler seedList :: (serveAll seedList (rest ++ e2)).2) = _
      rw [ih]
      rfl

/-- Every run of the statements of the refresh goroutine and of the handlers
under the mutex sends the responses that the cache sends when each tick and
each request is one indivisible step: no response holds bytes read while the
writer was inside its critical section. -/
theorem moves_refine_serveAll (ms : List Move) : ∀ (c c1 : LockedCache)
    (responses : List Response) (events : List Event), exclusive c →
    moves c ms = some (c1, responses, events) →
    exclusive c1 ∧ responses = (serveAll c.seedList events).2 ∧
      c1.seedList = (serveAll c.seedList events).1 := by
  induction ms with
  | nil =>
    intro c c1 responses events hc h
    simp only [moves, Option.some.injEq, Prod.mk.injEq] at h
    obtain ⟨rfl, rfl, rfl⟩ := h
    exact ⟨hc, rfl, rfl⟩
  | cons m rest ih =>
    intro c c1 responses events hc h
    simp only [moves] at h
    cases hm : move c m with
    | none => rw [hm] at h; cases h
    | some r =>
      obtain ⟨c2, response, event⟩ := r
      rw [hm] at h
      simp only at h
      cases hr : moves c2 rest with
      | none => rw [hr] at h; cases h
      | some r2 =>
        obtain ⟨c3, responses2, events2⟩ := r2
        rw [hr] at h
        simp only [Option.some.injEq, Prod.mk.injEq] at h
        obtain ⟨rfl, rfl, rfl⟩ := h
        obtain ⟨hex, hresp, hseed⟩ := move_exclusive c c2 m response event hc hm
        obtain ⟨hex3, hresp3, hseed3⟩ := ih c2 c3 responses2 events2 hex hr
        refine ⟨hex3, ?_, ?_⟩
        · rw [serveAll_append, hresp, hresp3, hseed]
        · rw [serveAll_append, hseed3, hseed]

/-! ## Task filtering and the peer-key attempts -/

/-- C10: the CIDR parse is applied to the literal `"address"`, which holds no
`'/'`, so for every task list that the orchestrator returns `getURLs` starts
no peer-key attempt and returns the empty URL list without error;
`generateSeedList` then returns the empty byte string when no signing key is
configured, and a line break, the hex of the signature of the empty message
and a line break when one is (130 octets for a 64-octet signature). -/
theorem getURLs_starts_no_attempt (sign : Bytes → Bytes → Bytes) (w : World)
    (list : List Task) (h : w.taskList = .ok list) :
    ParseCIDR w.parseAddrMask (ascii "address") = none ∧
    spawnAttempts w.parseAddrMask w.networkName list = [] ∧
    getURLs w = .ok [] ∧
    generateSeedList sign none w = .ok [] ∧
    ∀ privateKey : Bytes,
      generateSeedList sign (some privateKey) w
        = .ok ([nl] ++ EncodeToString (sign privateKey []) ++ [nl]) ∧
      ((sign privateKey []).length = 64 →
        ([nl] ++ EncodeToString (sign privateKey []) ++ [nl]).length = 130) := by
  refine ⟨parseCIDR_address _, spawnAttempts_eq_nil _ _ _, getURLs_of_ok w list h, ?_, ?_⟩
  · rw [generateSeedList_of_ok sign none w list h]; rfl
  · intro privateKey
    refine ⟨?_, ?_⟩
    · rw [generateSeedList_of_ok sign (some privateKey) w list h]; rfl
    · intro h64
      simp only [List.length_append, List.length_singleton, length_EncodeToString, h64]

theorem getURLs_starts_no_attempt_witness :
    exampleWorld.taskList = .ok threeTasks ∧
    getURLs exampleWorld = .ok [] ∧
    generateSeedList toySign none exampleWorld = .ok [] ∧
    ([nl] ++ EncodeToString (toySign [] []) ++ [nl]).length = 130 :=
  ⟨rfl,
   (getURLs_starts_no_attempt toySign exampleWorld threeTasks rfl).2.2.1,
   (getURLs_starts_no_attempt toySign exampleWorld threeTasks rfl).2.2.2.1,
   ((getURLs_starts_no_attempt toySign exampleWorld threeTasks rfl).2.2.2.2 []).2 (by decide)⟩

/-- C1, evaluated at a running task attached to the target network with one
address: the task meets the eligibility condition, the address is a CIDR that
`net.ParseCIDR` splits, and yet the task loop starts no attempt for it. -/
theorem eligible_task_starts_no_attempt :
    isCandidate devnet (runningTask (ascii "t1") (ascii "10.0.0.1/24")) ∧
    findAddress devnet (runningTask (ascii "t1") (ascii "10.0.0.1/24")).networksAttachments
      = ascii "10.0.0.1/24" ∧
    ParseCIDR parseAny (ascii "10.0.0.1/24") = some (ascii "10.0.0.1") ∧
    (∀ parse : Bytes → Bytes → Option Bytes,
      taskAttempt parse devnet (runningTask (ascii "t1") (ascii "10.0.0.1/24")) = none ∧
      spawnAttempts parse devnet [runningTask (ascii "t1") (ascii "10.0.0.1/24")] = []) := by
  refine ⟨⟨by decide, by decide, ?_⟩, by decide, by decide, fun parse =>
    ⟨taskAttempt_eq_none _ _ _, spawnAttempts_eq_nil _ _ _⟩⟩
  exact ⟨{ networkName := devnet, addresses := [ascii "10.0.0.1/24"] }, by simp [runningTask],
    rfl, by decide⟩

/-- C5, evaluated at the end-to-end example (three eligible tasks, the peers at
`10.0.0.1` and `10.0.0.2` answering `aa` and `bb`, the third timing out, no
signing key): the builder would turn the two URLs into the two lines of the
example, but the artifact that `generateSeedList` returns is empty. -/
theorem example_artifact_is_empty :
    (∀ t ∈ threeTasks, isCandidate devnet t) ∧
    seedListBytes toySign none
        [seedURL (ascii "10.0.0.1") (ascii "aa"), seedURL (ascii "10.0.0.2") (ascii "bb")]
      = ascii "ws://10.0.0.1:8443/aa\nws://10.0.0.2:8443/bb\n" ∧
    generateSeedList toySign none exampleWorld = .ok [] ∧
    ([] : Bytes) ≠ ascii "ws://10.0.0.1:8443/aa\nws://10.0.0.2:8443/bb\n" ∧
    ([] : Bytes) ≠ ascii "ws://10.0.0.2:8443/bb\nws://10.0.0.1:8443/aa\n" := by
  refine ⟨?_, by decide, ?_, by decide, by decide⟩
  · intro t ht
    simp only [threeTasks, List.mem_cons, List.mem_singleton, List.not_mem_nil, or_false] at ht
    rcases ht with rfl | rfl | rfl <;>
      exact ⟨by decide, by decide, _, List.mem_singleton.mpr rfl, rfl, by decide⟩
  · rw [generateSeedList_of_ok toySign none exampleWorld threeTasks rfl]; rfl

/-- C6: `generateSeedList` returns an error exactly when the task listing
does, and then the same error; for every task list that is returned, whatever
the addresses, the answers of the peers and the order in which the attempts
settle, it returns an artifact, the one with zero URL lines. -/
theorem generateSeedList_error_iff (sign : Bytes → Bytes → Bytes) (privateKey : Option Bytes)
    (w : World) :
    (∀ err, generateSeedList sign privateKey w = .error err ↔ w.taskList = .error err) ∧
    (∀ list, w.taskList = .ok list →
      getURLs w = .ok [] ∧
      generateSeedList sign privateKey w = .ok (seedListBytes sign privateKey [])) := by
  constructor
  · intro err
    cases h : w.taskList with
    | error e =>
      rw [generateSeedList_of_error sign privateKey w e h]
      constructor
      · intro h1; cases h1; rfl
      · intro h1; cases h1; rfl
    | ok list =>
      rw [generateSeedList_of_ok sign privateKey w list h]
      constructor
      · intro h1; cases h1
      · intro h1; cases h1
  · intro list h
    exact ⟨getURLs_of_ok w list h, generateSeedList_of_ok sign privateKey w list h⟩

theorem generateSeedList_error_iff_witness :
    failingWorld.taskList = .error (ascii "unreachable") ∧
    generateSeedList toySign none failingWorld = .error (ascii "unreachable") ∧
    exampleWorld2.taskList = .ok threeTasks ∧
    generateSeedList toySign none exampleWorld2 = .ok (seedListBytes toySign none []) :=
  ⟨rfl,
   ((generateSeedList_error_iff toySign none failingWorld).1 (ascii "unreachable")).mpr rfl,
   rfl,
   ((generateSeedList_error_iff toySign none exampleWorld2).2 threeTasks rfl).2⟩

/-- C9: two runs of `generateSeedList` on the same task snapshot and signing
key that both succeed return the same bytes, whatever the answers of the peers
and the order in which the attempts settle in either run. -/
theorem generateSeedList_deterministic (sign : Bytes → Bytes → Bytes)
    (privateKey : Option Bytes) (w1 w2 : World) (snapshot : List Task) (a1 a2 : Bytes)
    (h1 : w1.taskList = .ok snapshot) (h2 : w2.taskList = .ok snapshot)
    (g1 : generateSeedList sign privateKey w1 = .ok a1)
    (g2 : generateSeedList sign privateKey w2 = .ok a2) : a1 = a2 := by
  rw [generateSeedList_of_ok sign privateKey w1 snapshot h1] at g1
  rw [generateSeedList_of_ok sign privateKey w2 snapshot h2] at g2
  cases g1
  cases g2
  rfl

theorem generateSeedList_deterministic_witness :
    exampleWorld.taskList = .ok threeTasks ∧ exampleWorld2.taskList = .ok threeTasks ∧
    generateSeedList toySign (some []) exampleWorld
      = .ok ([nl] ++ EncodeToString (toySign [] []) ++ [nl]) ∧
    generateSeedList toySign (some []) exampleWorld2 = .ok (seedListBytes toySign (some []) []) ∧
    [nl] ++ EncodeToString (toySign [] []) ++ [nl] = seedListBytes toySign (some []) [] :=
  ⟨rfl, rfl,
   generateSeedList_of_ok toySign (some []) exampleWorld threeTasks rfl,
   generateSeedList_of_ok toySign (some []) exampleWorld2 threeTasks rfl,
   generateSeedList_deterministic toySign (some []) exampleWorld exampleWorld2 threeTasks
     ([nl] ++ EncodeToString (toySign [] []) ++ [nl]) (seedListBytes toySign (some []) [])
     rfl rfl
     (generateSeedList_of_ok toySign (some []) exampleWorld threeTasks rfl)
     (generateSeedList_of_ok toySign (some []) exampleWorld2 threeTasks rfl)⟩

/-! ## Assembly and signature -/

theorem writeURLs_foldl (urls : List Bytes) (buf : Bytes) :
    urls.foldl (fun buf u => buf ++ u ++ [nl]) buf = buf ++ urlLines urls := by
  induction urls generalizing buf with
  | nil => simp [urlLines]
  | cons u rest ih =>
    rw [List.foldl_cons, ih]
    simp only [urlLines, List.append_assoc]

theorem writeURLs_eq_urlLines (urls : List Bytes) : writeURLs urls = urlLines urls := by
  unfold writeURLs
  rw [writeURLs_foldl]
  rfl

theorem seedListBytes_eq (sign : Bytes → Bytes → Bytes) (privateKey : Option Bytes)
    (urls : List Bytes) :
    seedListBytes sign privateKey urls =
      urlLines urls ++
        (match privateKey with
         | none => []
         | some key => [nl] ++ EncodeToString (sign key (urlLines urls)) ++ [nl]) := by
  unfold seedListBytes
  cases privateKey with
  | none => simp only [writeURLs_eq_urlLines, List.append_nil]
  | some key => simp only [writeURLs_eq_urlLines, List.append_assoc]

/-- The two-line tail of an artifact is determined by the artifact: two ways
of cutting it into a body, a line break, a last line without line break and a
final line break agree. -/
theorem split_unique (P P1 H H1 : Bytes) (hH : nl ∉ H) (hH1 : nl ∉ H1)
    (h : P ++ [nl] ++ H ++ [nl] = P1 ++ [nl] ++ H1 ++ [nl]) : P1 = P ∧ H1 = H := by
  have h1 : P ++ [nl] ++ H = P1 ++ [nl] ++ H1 := List.append_cancel_right h
  simp only [List.append_assoc, List.singleton_append] at h1
  rcases List.append_eq_append_iff.mp h1 with ⟨a, ha, hb⟩ | ⟨c, hc, hd⟩
  · cases a with
    | nil =>
      simp only [List.append_nil, List.nil_append, List.cons.injEq, true_and] at ha hb
      exact ⟨ha, hb.symm⟩
    | cons x t =>
      simp only [List.cons_append, List.cons.injEq] at hb
      exact absurd (by rw [hb.2]; simp) hH
  · cases c with
    | nil =>
      simp only [List.append_nil, List.nil_append, List.cons.injEq, true_and] at hc hd
      exact ⟨hc.symm, hd⟩
    | cons x t =>
      simp only [List.cons_append, List.cons.injEq] at hd
      exact absurd (by rw [hd.2]; simp) hH1

/-- The same with the last line fixed by its length instead. -/
theorem split_unique_of_length (P P1 H H1 : Bytes) (hlen : H1.length = H.length)
    (h : P ++ [nl] ++ H ++ [nl] = P1 ++ [nl] ++ H1 ++ [nl]) : P1 = P ∧ H1 = H := by
  have h1 : P ++ [nl] ++ H = P1 ++ [nl] ++ H1 := List.append_cancel_right h
  have h2 := List.append_inj' h1 hlen.symm
  exact ⟨(List.append_cancel_right h2.1).symm, h2.2.symm⟩

theorem seedListBytes_eq_lowerHex (sign : Bytes → Bytes → Bytes) (privateKey : Option Bytes)
    (urls : List Bytes) :
    seedListBytes sign privateKey urls =
      urlLines urls ++
        (match privateKey with
         | none => []
         | some key => [nl] ++ lowerHex (sign key (urlLines urls)) ++ [nl]) := by
  rw [seedListBytes_eq]
  cases privateKey with
  | none => rfl
  | some key => simp only [EncodeToString_eq_lowerHex]

/-- C2: for every list of URLs, `generateSeedList` returns the URLs in the
order received, each followed by one line break, and, exactly when a signing
key is configured, one more line break, the lowercase hex of the signature of
those URL lines, and a line break; without a key the artifact is the URL lines
alone, empty for zero URLs. The hex line is the encoding of the specification
(`lowerHex`): two digits per octet of the signature, high four bits first,
digits `0`-`9` and `a`-`f`, and it decodes back to the signature. -/
theorem generateSeedList_format (sign : Bytes → Bytes → Bytes) (privateKey : Option Bytes)
    (urls : List Bytes) :
    seedListBytes sign privateKey urls =
      urlLines urls ++
        (match privateKey with
         | none => []
         | some key => [nl] ++ EncodeToString (sign key (urlLines urls)) ++ [nl]) ∧
    (∀ key, ∀ c ∈ EncodeToString (sign key (urlLines urls)), isLowerHex c) ∧
    seedListBytes sign none urls = urlLines urls ∧
    seedListBytes sign none [] = [] ∧
    (∀ w : World, getURLs w = .ok urls →
      generateSeedList sign privateKey w =
        .ok (urlLines urls ++
          (match privateKey with
           | none => []
           | some key => [nl] ++ EncodeToString (sign key (urlLines urls)) ++ [nl]))) ∧
    seedListBytes sign privateKey urls =
      urlLines urls ++
        (match privateKey with
         | none => []
         | some key => [nl] ++ lowerHex (sign key (urlLines urls)) ++ [nl]) ∧
    (∀ w : World, getURLs w = .ok urls →
      generateSeedList sign privateKey w =
        .ok (urlLines urls ++
          (match privateKey with
           | none => []
           | some key => [nl] ++ lowerHex (sign key (urlLines urls)) ++ [nl]))) ∧
    (∀ key,
      EncodeToString (sign key (urlLines urls)) = lowerHex (sign key (urlLines urls)) ∧
      (lowerHex (sign key (urlLines urls))).length = 2 * (sign key (urlLines urls)).length ∧
      DecodeString (lowerHex (sign key (urlLines urls))) = (sign key (urlLines urls), none) ∧
      ∀ i b, (sign key (urlLines urls)).get? i = some b →
        (lowerHex (sign key (urlLines urls))).get? (2 * i) = some (lowerHexDigit (b.val / 16)) ∧
        (lowerHex (sign key (urlLines urls))).get? (2 * i + 1)
          = some (lowerHexDigit (b.val % 16))) := by
  have hE := seedListBytes_eq sign privateKey urls
  have hL := seedListBytes_eq_lowerHex sign privateKey urls
  refine ⟨hE, fun key => isLowerHex_EncodeToString _, ?_, rfl, ?_, hL, ?_, ?_⟩
  · rw [seedListBytes_eq]; simp only [List.append_nil]
  · intro w hw
    unfold generateSeedList
    rw [hw]
    simp only [hE]
  · intro w hw
    unfold generateSeedList
    rw [hw]
    simp only [hL]
  · intro key
    refine ⟨EncodeToString_eq_lowerHex _, ?_, ?_, ?_⟩
    · rw [← EncodeToString_eq_lowerHex, length_EncodeToString]
    · rw [← EncodeToString_eq_lowerHex, DecodeString_EncodeToString]
    · intro i b hb
      have h := EncodeToString_digits (sign key (urlLines urls)) i
      rw [EncodeToString_eq_lowerHex, hb] at h
      exact h

set_option maxRecDepth 100000 in
theorem generateSeedList_format_witness :
    getURLs exampleWorld = .ok [] ∧
    generateSeedList toySign (some []) exampleWorld =
      .ok (urlLines [] ++ ([nl] ++ EncodeToString (toySign [] (urlLines [])) ++ [nl])) ∧
    seedListBytes rampSign (some [])
        [seedURL (ascii "10.0.0.1") (ascii "aa"), seedURL (ascii "10.0.0.2") (ascii "bb")]
      = ascii "ws://10.0.0.1:8443/aa\nws://10.0.0.2:8443/bb\n\n" ++
        ascii "2c51769bc0e50a2f54799ec3e80d32577ca1c6eb10355a7fa4c9ee13385d82a7" ++
        ascii "ccf1163b6085aacff4193e6388add2f71c41668bb0d5fa1f44698eb3d8fd2247" ++ ascii "\n" ∧
    (rampSign [] (ascii "ws://10.0.0.1:8443/aa\nws://10.0.0.2:8443/bb\n")).get? 1
      = some 81 ∧
    (lowerHex (rampSign [] (urlLines
        [seedURL (ascii "10.0.0.1") (ascii "aa"), seedURL (ascii "10.0.0.2") (ascii "bb")]))).get?
          (2 * 1 + 1)
      = some (lowerHexDigit 1) :=
  ⟨getURLs_of_ok exampleWorld threeTasks rfl,
   (generateSeedList_format toySign (some []) []).2.2.2.2.1 exampleWorld
     (getURLs_of_ok exampleWorld threeTasks rfl),
   (generateSeedList_format rampSign (some [])
     [seedURL (ascii "10.0.0.1") (ascii "aa"), seedURL (ascii "10.0.0.2") (ascii "bb")]).2.2.2.2.2.1.trans
       (by decide),
   by decide,
   (((generateSeedList_format rampSign (some [])
     [seedURL (ascii "10.0.0.1") (ascii "aa"), seedURL (ascii "10.0.0.2") (ascii "bb")]).2.2.2.2.2.2.2
       []).2.2.2 1 81 (by decide)).2⟩

/-- C3: with a signing key whose signatures are 64 octets and verify under the
public key, every artifact is the URL lines, a line break, a last line of 128
lowercase hex digits and a line break; the cut is the only one whose last line
holds no line break, and the only one whose last line has 128 octets; and the
hex-decoded last line verifies over the URL lines. -/
theorem signed_artifact_verifies (sign : Bytes → Bytes → Bytes)
    (verify : Bytes → Bytes → Bytes → Bool) (priv pub : Bytes)
    (hverify : ∀ m, verify pub m (sign priv m) = true)
    (h64 : ∀ m, (sign priv m).length = 64) (urls : List Bytes) :
    ∃ P H sig,
      P = urlLines urls ∧
      seedListBytes sign (some priv) urls = P ++ [nl] ++ H ++ [nl] ∧
      H.length = 128 ∧ (∀ c ∈ H, isLowerHex c) ∧
      (∀ P1 H1, seedListBytes sign (some priv) urls = P1 ++ [nl] ++ H1 ++ [nl] →
        (nl ∉ H1 ∨ H1.length = 128) → P1 = P ∧ H1 = H) ∧
      DecodeString H = (sig, none) ∧ verify pub P sig = true ∧
      (∀ w : World, getURLs w = .ok urls →
        generateSeedList sign (some priv) w = .ok (P ++ [nl] ++ H ++ [nl])) := by
  have hA : seedListBytes sign (some priv) urls =
      urlLines urls ++ [nl] ++ EncodeToString (sign priv (urlLines urls)) ++ [nl] := by
    rw [seedListBytes_eq]; simp only [List.append_assoc]
  have hlen : (EncodeToString (sign priv (urlLines urls))).length = 128 := by
    rw [length_EncodeToString, h64]
  refine ⟨urlLines urls, EncodeToString (sign priv (urlLines urls)), sign priv (urlLines urls),
    rfl, hA, hlen, isLowerHex_EncodeToString _, ?_, DecodeString_EncodeToString _, hverify _, ?_⟩
  · intro P1 H1 h1 hor
    rw [hA] at h1
    rcases hor with hno | hl
    · exact split_unique _ _ _ _ (nl_not_mem_EncodeToString _) hno h1
    · exact split_unique_of_length _ _ _ _ (by rw [hl, hlen]) h1
  · intro w hw
    unfold generateSeedList
    rw [hw]
    simp only [hA]

theorem signed_artifact_verifies_witness :
    (∀ m, toyVerify [] m (toySign [] m) = true) ∧ (∀ m, (toySign [] m).length = 64) ∧
    ∃ P H sig,
      P = urlLines [ascii "ws://10.0.0.1:8443/aa"] ∧
      seedListBytes toySign (some []) [ascii "ws://10.0.0.1:8443/aa"] = P ++ [nl] ++ H ++ [nl] ∧
      H.length = 128 ∧ (∀ c ∈ H, isLowerHex c) ∧
      (∀ P1 H1, seedListBytes toySign (some []) [ascii "ws://10.0.0.1:8443/aa"]
          = P1 ++ [nl] ++ H1 ++ [nl] →
        (nl ∉ H1 ∨ H1.length = 128) → P1 = P ∧ H1 = H) ∧
      DecodeString H = (sig, none) ∧ toyVerify [] P sig = true ∧
      (∀ w : World, getURLs w = .ok [ascii "ws://10.0.0.1:8443/aa"] →
        generateSeedList toySign (some []) w = .ok (P ++ [nl] ++ H ++ [nl])) :=
  ⟨fun m => by simp [toyVerify], fun m => by simp [toySign],
   signed_artifact_verifies toySign toyVerify [] [] (fun m => by simp [toyVerify])
     (fun m => by simp [toySign]) [ascii "ws://10.0.0.1:8443/aa"]⟩

/-! ## The signing key at startup -/

theorem DecodeString_seed_iff (pk : Bytes) :
    (∃ seed : Bytes, seed.length = 32 ∧ DecodeString pk = (seed, none)) ↔
      (pk.length = 64 ∧ ∀ c ∈ pk, isHexDigit c) := by
  have h := DecodeString_ok_iff pk.length pk (le_refl _)
  constructor
  · rintro ⟨seed, hlen, hdec⟩
    have h2 : (DecodeString pk).2 = none := by rw [hdec]
    have h3 := h.2 h2
    rw [hdec] at h3
    simp only at h3
    exact ⟨by omega, (h.1.mp h2).2⟩
  · rintro ⟨hlen, hall⟩
    have h2 : (DecodeString pk).2 = none := h.1.mpr ⟨by omega, hall⟩
    have h3 := h.2 h2
    exact ⟨(DecodeString pk).1, by omega, by rw [← h2]⟩

/-- C7: with `$SEED_PRIVATE_KEY` unset or empty the key stays nil and the
process goes on; with it set, the process exits with `Invalid
$SEED_PRIVATE_KEY` exactly when the value does not hex-decode to 32 octets,
that is unless it is 64 hex digits, and otherwise the key is
`ed25519.NewKeyFromSeed` of the decoded octets. -/
theorem loadPrivateKey_spec (newKeyFromSeed : Bytes → Bytes) (pk : Bytes) :
    (pk = [] → loadPrivateKey newKeyFromSeed pk = .ok none) ∧
    (pk ≠ [] →
      (loadPrivateKey newKeyFromSeed pk = .error Fatal.invalidSeedPrivateKey ↔
        ¬ ∃ seed : Bytes, seed.length = 32 ∧ DecodeString pk = (seed, none))) ∧
    (∀ seed : Bytes, seed.length = 32 → DecodeString pk = (seed, none) →
      loadPrivateKey newKeyFromSeed pk = .ok (some (newKeyFromSeed seed))) ∧
    ((∃ seed : Bytes, seed.length = 32 ∧ DecodeString pk = (seed, none)) ↔
      (pk.length = 64 ∧ ∀ c ∈ pk, isHexDigit c)) ∧
    (∀ (sign : Bytes → Bytes → Bytes) (newEnvClient : Option Bytes) (w : World),
      startup newKeyFromSeed sign pk newEnvClient w = .error Fatal.invalidSeedPrivateKey ↔
        (pk ≠ [] ∧ ¬ ∃ seed : Bytes, seed.length = 32 ∧ DecodeString pk = (seed, none))) := by
  have hseed : ∀ seed : Bytes, seed.length = 32 → DecodeString pk = (seed, none) →
      loadPrivateKey newKeyFromSeed pk = .ok (some (newKeyFromSeed seed)) := by
    intro seed hlen hdec
    have hne : pk ≠ [] := by
      rintro rfl
      simp only [DecodeString, Prod.mk.injEq] at hdec
      rw [← hdec.1] at hlen
      simp at hlen
    unfold loadPrivateKey
    rw [if_pos hne, hdec]
    simp [SeedSize, hlen]
  have hfatal : pk ≠ [] →
      (loadPrivateKey newKeyFromSeed pk = .error Fatal.invalidSeedPrivateKey ↔
        ¬ ∃ seed : Bytes, seed.length = 32 ∧ DecodeString pk = (seed, none)) := by
    intro hne
    constructor
    · rintro hf ⟨seed, hlen, hdec⟩
      rw [hseed seed hlen hdec] at hf
      cases hf
    · intro hno
      unfold loadPrivateKey
      rw [if_pos hne]
      by_cases hc : (DecodeString pk).2 ≠ none ∨ (DecodeString pk).1.length ≠ SeedSize
      · simp only [hc, if_true]
      · exfalso
        apply hno
        simp only [not_or, not_not, SeedSize] at hc
        exact ⟨(DecodeString pk).1, hc.2, by rw [← hc.1]⟩
  have hempty : pk = [] → loadPrivateKey newKeyFromSeed pk = .ok none := by
    rintro rfl
    rfl
  refine ⟨hempty, hfatal, hseed, DecodeString_seed_iff pk, ?_⟩
  intro sign newEnvClient w
  unfold startup
  by_cases hne : pk = []
  · rw [hempty hne]
    constructor
    · intro h
      cases newEnvClient with
      | some err => cases h
      | none =>
        simp only at h
        cases hg : generateSeedList sign none w with
        | error e => rw [hg] at h; cases h
        | ok s => rw [hg] at h; cases h
    · rintro ⟨h1, _⟩; exact absurd hne h1
  · constructor
    · intro h
      refine ⟨hne, fun hex => ?_⟩
      obtain ⟨seed, hlen, hdec⟩ := hex
      rw [hseed seed hlen hdec] at h
      cases newEnvClient with
      | some err => cases h
      | none =>
        simp only at h
        cases hg : generateSeedList sign (some (newKeyFromSeed seed)) w with
        | error e => rw [hg] at h; cases h
        | ok s => rw [hg] at h; cases h
    · rintro ⟨_, hno⟩
      rw [(hfatal hne).mpr hno]

theorem loadPrivateKey_spec_witness :
    loadPrivateKey (fun seed => seed ++ seed) [] = .ok none ∧
    loadPrivateKey (fun seed => seed ++ seed) (ascii "00ff") = .error Fatal.invalidSeedPrivateKey ∧
    loadPrivateKey (fun seed => seed ++ seed)
        (ascii "000102030405060708090a0b0c0d0e0f101112131415161718191A1B1C1D1E1F")
      = .ok (some ((fun seed : Bytes => seed ++ seed)
          ((List.range 32).map (fun n => Fin.ofNat n)))) :=
  ⟨(loadPrivateKey_spec (fun seed => seed ++ seed) []).1 rfl,
   ((loadPrivateKey_spec (fun seed => seed ++ seed) (ascii "00ff")).2.1 (by decide)).mpr
     (by
       rintro ⟨seed, hlen, hdec⟩
       have h : DecodeString (ascii "00ff") = ([0, 255], none) := by decide
       rw [h] at hdec
       simp only [Prod.mk.injEq, and_true] at hdec
       rw [← hdec] at hlen
       simp at hlen),
   (loadPrivateKey_spec (fun seed => seed ++ seed)
      (ascii "000102030405060708090a0b0c0d0e0f101112131415161718191A1B1C1D1E1F")).2.2.1
     ((List.range 32).map (fun n => Fin.ofNat n)) (by decide) (by decide)⟩

/-! ## The cache -/

/-- C4: a refresh whose generation returns an error leaves `seedList`, and so
what is served, as it was; a refresh whose generation succeeds makes
`seedList` the newly generated artifact. At the level of the mutex: a failed
generation changes nothing in the state and takes no lock, and a successful
one followed by lock, assignment and unlock ends with the new artifact. -/
theorem refresh_keeps_or_swaps (seedList : Bytes) (result : Except Bytes Bytes) :
    (∀ err, result = .error err →
      refresh seedList result = seedList ∧
      handler (refresh seedList result) = handler seedList ∧
      serveAll seedList [Event.tick result] = (seedList, [])) ∧
    (∀ newSeedList, result = .ok newSeedList →
      refresh seedList result = newSeedList ∧
      serveAll seedList [Event.tick result] = (newSeedList, [])) ∧
    (∀ (readers : Nat) (err : Bytes), result = .error err →
      move { seedList := seedList, readers := readers, pc := RefreshPc.waiting }
          (Move.generate result)
        = some ({ seedList := seedList, readers := readers, pc := RefreshPc.waiting }, none,
            some (Event.tick (.error err)))) ∧
    (∀ newSeedList, result = .ok newSeedList →
      moves (serving seedList) [Move.generate result, Move.lock, Move.assign, Move.unlock]
        = some (serving newSeedList, [], [Event.tick (.ok newSeedList)])) := by
  refine ⟨?_, ?_, ?_, ?_⟩
  · rintro err rfl
    exact ⟨rfl, rfl, rfl⟩
  · rintro newSeedList rfl
    exact ⟨rfl, rfl⟩
  · rintro readers err rfl
    rfl
  · rintro newSeedList rfl
    rfl

theorem refresh_keeps_or_swaps_witness :
    generateSeedList toySign none failingWorld = .error (ascii "unreachable") ∧
    refresh (ascii "old\n") (generateSeedList toySign none failingWorld) = ascii "old\n" ∧
    generateSeedList toySign none exampleWorld = .ok [] ∧
    refresh (ascii "old\n") (generateSeedList toySign none exampleWorld) = [] :=
  ⟨generateSeedList_of_error toySign none failingWorld _ rfl,
   ((refresh_keeps_or_swaps (ascii "old\n") (generateSeedList toySign none failingWorld)).1
      (ascii "unreachable") (generateSeedList_of_error toySign none failingWorld _ rfl)).1,
   (generateSeedList_of_ok toySign none exampleWorld threeTasks rfl),
   ((refresh_keeps_or_swaps (ascii "old\n") (generateSeedList toySign none exampleWorld)).2.1
      [] (generateSeedList_of_ok toySign none exampleWorld threeTasks rfl)).1⟩

/-- The cache ends holding the output of the most recent successful
generation, one response is sent per request, and the response to each request
is the output of the most recent generation that had succeeded before it. -/
theorem serveAll_spec (seedList : Bytes) (events : List Event) :
    (serveAll seedList events).1 = lastGenerated seedList events ∧
    (serveAll seedList events).2.length = requestCount events ∧
    ∀ n, n < requestCount events →
      (serveAll seedList events).2.get? n
        = some (handler (lastGenerated seedList (beforeRequest n events))) ∧
      ((serveAll seedList events).2.get? n).map Response.body
        = some (lastGenerated seedList (beforeRequest n events)) := by
  induction events generalizing seedList with
  | nil => exact ⟨rfl, rfl, fun n hn => absurd hn (Nat.not_lt_zero n)⟩
  | cons e rest ih =>
    cases e with
    | tick result =>
      cases result with
      | error err =>
        obtain ⟨h1, h2, h3⟩ := ih seedList
        refine ⟨h1, h2, fun n hn => ?_⟩
        have := h3 n hn
        cases n <;> exact this
      | ok newSeedList =>
        obtain ⟨h1, h2, h3⟩ := ih newSeedList
        refine ⟨h1, h2, fun n hn => ?_⟩
        have := h3 n hn
        cases n <;> exact this
    | request =>
      obtain ⟨h1, h2, h3⟩ := ih seedList
      refine ⟨h1, ?_, fun n hn => ?_⟩
      · simp only [serveAll, requestCount, List.length_cons, h2]
      · cases n with
        | zero => exact ⟨rfl, rfl⟩
        | succ m =>
          have := h3 m (by simp only [requestCount] at hn; omega)
          exact this

theorem startup_ok (newKeyFromSeed : Bytes → Bytes) (sign : Bytes → Bytes → Bytes)
    (pk : Bytes) (newEnvClient : Option Bytes) (w : World) (privateKey : Option Bytes)
    (seedList : Bytes)
    (h : startup newKeyFromSeed sign pk newEnvClient w = .ok (privateKey, seedList)) :
    loadPrivateKey newKeyFromSeed pk = .ok privateKey ∧
    generateSeedList sign privateKey w = .ok seedList := by
  unfold startup at h
  cases hk : loadPrivateKey newKeyFromSeed pk with
  | error f => rw [hk] at h; cases h
  | ok key =>
    rw [hk] at h
    cases newEnvClient with
    | some err => cases h
    | none =>
      simp only at h
      cases hg : generateSeedList sign key w with
      | error e => rw [hg] at h; cases h
      | ok s0 =>
        rw [hg] at h
        simp only [Except.ok.injEq, Prod.mk.injEq] at h
        obtain ⟨rfl, rfl⟩ := h
        exact ⟨rfl, hg⟩

/-- C8: the cache starts from the output of the first, successful generation;
from there, under every interleaving of refresh ticks and requests, it ends
holding the output of the most recent successful generation, one response is
sent per request, and the body of each response is, in full, the output of the
most recent generation that had succeeded and been swapped in before that
request (the first artifact if none had). The same holds statement by
statement under the mutex, where a read that overlapped the assignment would
see other bytes: no response holds such bytes. -/
theorem reads_return_last_generated (seedList : Bytes) :
    (∀ (newKeyFromSeed : Bytes → Bytes) (sign : Bytes → Bytes → Bytes) (pk : Bytes)
        (newEnvClient : Option Bytes) (w : World) (privateKey : Option Bytes),
      startup newKeyFromSeed sign pk newEnvClient w = .ok (privateKey, seedList) →
        generateSeedList sign privateKey w = .ok seedList) ∧
    (∀ events : List Event,
      (serveAll seedList events).1 = lastGenerated seedList events ∧
      (serveAll seedList events).2.length = requestCount events ∧
      ∀ n, n < requestCount events →
        (serveAll seedList events).2.get? n
          = some (handler (lastGenerated seedList (beforeRequest n events))) ∧
        ((serveAll seedList events).2.get? n).map Response.body
          = some (lastGenerated seedList (beforeRequest n events))) ∧
    (∀ (ms : List Move) (c1 : LockedCache) (responses : List Response) (events : List Event),
      moves (serving seedList) ms = some (c1, responses, events) →
        c1.seedList = lastGenerated seedList events ∧
        responses.length = requestCount events ∧
        ∀ n, n < requestCount events →
          (responses.get? n).map Response.body
            = some (lastGenerated seedList (beforeRequest n events))) := by
  refine ⟨?_, fun events => serveAll_spec seedList events, ?_⟩
  · intro newKeyFromSeed sign pk newEnvClient w privateKey h
    exact (startup_ok newKeyFromSeed sign pk newEnvClient w privateKey seedList h).2
  · intro ms c1 responses events h
    have hex : exclusive (serving seedList) := fun _ => rfl
    obtain ⟨_, hresp, hseed⟩ := moves_refine_serveAll ms (serving seedList) c1 responses events hex h
    obtain ⟨h1, h2, h3⟩ := serveAll_spec seedList events
    have hseed1 : c1.seedList = (serveAll seedList events).1 := hseed
    have hresp1 : responses = (serveAll seedList events).2 := hresp
    refine ⟨by rw [hseed1, h1], by rw [hresp1, h2], fun n hn => ?_⟩
    rw [hresp1]
    exact (h3 n hn).2

theorem reads_return_last_generated_witness :
    moves (serving (ascii "old\n"))
        [Move.rlock, Move.write (ascii "torn"), Move.generate (.ok (ascii "new\n")),
         Move.runlock, Move.lock, Move.assign, Move.unlock,
         Move.generate (.error (ascii "unreachable")), Move.rlock, Move.write (ascii "torn")]
      = some ({ seedList := ascii "new\n", readers := 1, pc := RefreshPc.waiting },
          [handler (ascii "old\n"), handler (ascii "new\n")],
          [Event.request, Event.tick (.ok (ascii "new\n")),
           Event.tick (.error (ascii "unreachable")), Event.request]) ∧
    1 < requestCount [Event.request, Event.tick (.ok (ascii "new\n")),
           Event.tick (.error (ascii "unreachable")), Event.request] ∧
    ([handler (ascii "old\n"), handler (ascii "new\n")].get? 1).map Response.body
      = some (ascii "new\n") :=
  ⟨rfl, by decide,
   ((reads_return_last_generated (ascii "old\n")).2.2
      [Move.rlock, Move.write (ascii "torn"), Move.generate (.ok (ascii "new\n")),
       Move.runlock, Move.lock, Move.assign, Move.unlock,
       Move.generate (.error (ascii "unreachable")), Move.rlock, Move.write (ascii "torn")]
      { seedList := ascii "new\n", readers := 1, pc := RefreshPc.waiting }
      [handler (ascii "old\n"), handler (ascii "new\n")]
      [Event.request, Event.tick (.ok (ascii "new\n")),
       Event.tick (.error (ascii "unreachable")), Event.request] rfl).2.2 1 (by decide)⟩

end SeedList
